import Mathlib

/-!
Verification of the core data pipeline of `src/dashboard.py` (a Streamlit
dashboard over a product-ranking dataset): numeric normalization, category
aggregation, filtering/sorting, detail selection, currency lookup and the
displayed heat ratio.

The pandas dataframe is embedded shallowly: a `Frame` is a list of column
names plus rows, each row a function from column name to `RawValue`.
Machine floats of the source are modelled as rationals (`ℚ`).
-/

namespace Dashboard

/-- A raw cell value of the loaded dataset: either already numeric, a string,
or missing (pandas `NaN`/`None`). -/
inductive RawValue where
  | num (q : ℚ)
  | str (s : String)
  | null
deriving DecidableEq

/-- Digit-string value, e.g. `digitsVal ['1','6','8','0'] = 1680`. -/
def digitsVal (l : List Char) : ℕ :=
  l.foldl (fun a c => a * 10 + (c.toNat - 48)) 0

/-- Parse an unsigned decimal literal (`"1680"`, `"3.5"`, `".5"`, `"5."`),
the grammar accepted by `pd.to_numeric` on plain decimal text (scientific
notation and infinities are outside the model). -/
def parseUnsigned (l : List Char) : Option ℚ :=
  match l.splitOn '.' with
  | [w] =>
      if w ≠ [] && w.all Char.isDigit then some (digitsVal w : ℚ) else none
  | [w, fp] =>
      if w.all Char.isDigit && fp.all Char.isDigit && !(w = [] && fp = []) then
        some ((digitsVal w : ℚ) + (digitsVal fp : ℚ) / (10 : ℚ) ^ fp.length)
      else none
  | _ => none

/-- Parse an optionally signed decimal literal; `none` models the values on
which `pd.to_numeric(..., errors='coerce')` produces `NaN`. -/
def parseNum (s : String) : Option ℚ :=
  match s.toList with
  | '-' :: rest => (parseUnsigned rest).map (fun q => -q)
  | '+' :: rest => parseUnsigned rest
  | l => parseUnsigned l

/-- `df[col].astype(str).str.replace(',', '')` — drop every comma. -/
def stripCommas (s : String) : String :=
  String.mk (s.toList.filter (fun c => c ≠ ','))

/-- `.str.strip()` — drop leading and trailing whitespace. -/
def pyStrip (s : String) : String :=
  String.mk (((s.toList.dropWhile Char.isWhitespace).reverse.dropWhile
    Char.isWhitespace).reverse)

/-- The per-cell effect of dashboard.py lines 38–39:
`astype(str).str.replace(',', '').str.strip()` then
`pd.to_numeric(errors='coerce').fillna(0)`.  An already numeric value
round-trips through its decimal representation; a missing value becomes
`NaN` and `fillna` turns it into `0`. -/
def coerce : RawValue → ℚ
  | .num q => q
  | .str s => (parseNum (pyStrip (stripCommas s))).getD 0
  | .null => 0

/-- A dataframe: the column names of the schema together with the rows, each
row giving a value for every column name. -/
structure Frame where
  cols : List String
  rows : List (String → RawValue)

/-- The five numeric columns fixed by the loop at dashboard.py lines 35–39:
`['销量数字', '评论数', '价格', '评分', '排名']`
(sales count, review count, price, rating, rank). -/
def cols_to_fix : List String := ["销量数字", "评论数", "价格", "评分", "排名"]

/-- Overwrite one cell of a row (column assignment, per row). -/
def setCol (r : String → RawValue) (c : String) (x : RawValue) :
    String → RawValue :=
  fun c2 => if c2 = c then x else r c2

/-- `df[c] = <expression of the row>`: add (or overwrite) column `c`,
computing each row's new value from that row. -/
def addCol (f : Frame) (c : String) (v : (String → RawValue) → RawValue) :
    Frame :=
  { cols := f.cols ++ [c], rows := f.rows.map (fun r => setCol r c (v r)) }

/-- One iteration of the numeric-fix loop (dashboard.py lines 36–39): if the
column is present, replace each of its cells by its coerced numeric value;
otherwise leave the frame unchanged. -/
def fixCol (f : Frame) (c : String) : Frame :=
  if f.cols.contains c then
    { cols := f.cols,
      rows := f.rows.map (fun r => setCol r c (RawValue.num (coerce (r c)))) }
  else f

/-- dashboard.py lines 33–39 of `load_data`, after the category column has
been resolved: default the country column `国家` to `阿联酋` when absent, then
coerce every present numeric column. -/
def load_aux (f1 : Frame) : Frame :=
  let f2 := if f1.cols.contains "国家" then f1
            else addCol f1 "国家" (fun _ => RawValue.str "阿联酋")
  cols_to_fix.foldl fixCol f2

/-- `load_data` (dashboard.py lines 25–43) on an already-read frame: resolve
the category alias (`类目` first, else `所属类目`) into `Target_Category`,
aborting with `none` when neither is present (`st.error`/`st.stop`), then
default the country and coerce the numeric columns. -/
def load_data (f : Frame) : Option Frame :=
  if f.cols.contains "类目" then
    some (load_aux (addCol f "Target_Category" (fun r => r "类目")))
  else if f.cols.contains "所属类目" then
    some (load_aux (addCol f "Target_Category" (fun r => r "所属类目")))
  else none

/-- Currency lookup (dashboard.py lines 65–67): initialised to `"AED"`, then
`沙特 → "SAR"`, `阿联酋 → "AED"`; any other country keeps the initial
`"AED"`. -/
def currency_symbol (selected_country : String) : String :=
  if selected_country = "沙特" then "SAR"
  else if selected_country = "阿联酋" then "AED"
  else "AED"

/-- A normalized record, with the columns the aggregation and detail stages
read: `Target_Category`, `国家` (country), `产品名` (product name),
`排名` (rank), `销量数字` (sales count), `评论数` (review count). -/
structure Rec where
  category : String
  country : String
  name : String
  rank : ℚ
  sales : ℚ
  comments : ℚ
deriving DecidableEq

/-- `df = df_raw[df_raw['国家'] == selected_country]` (dashboard.py line 63). -/
def countryFilter (rs : List Rec) (country : String) : List Rec :=
  rs.filter (fun r => r.country = country)

/-- One row of `category_stats` (dashboard.py lines 74–84): per-category
product count `产品总数`, total sales `类目总销量`, total comments
`类目总评论`, and `Top10销量总和`. -/
structure CatStats where
  category : String
  count : ℕ
  totalSales : ℚ
  totalComments : ℚ
  top10 : ℚ
deriving DecidableEq

/-- `get_top10_sum` (dashboard.py lines 80–81) on the group's sales-count
column: `group.nlargest(10, '销量数字')['销量数字'].sum()` — sort the values
descending, keep (at most) the first 10, sum them. -/
def get_top10_sum (sales : List ℚ) : ℚ :=
  ((sales.mergeSort (fun a b => decide (b ≤ a))).take 10).sum

/-- The group-key column of the groupby: the distinct categories. -/
def categories (rs : List Rec) : List String :=
  (rs.map (fun r => r.category)).dedup

/-- The sales-count column of one category's group. -/
def group_sales (rs : List Rec) (cat : String) : List ℚ :=
  (rs.filter (fun r => r.category = cat)).map (fun r => r.sales)

/-- `category_stats` (dashboard.py lines 74–84): the merge on
`Target_Category` of `base_stats` (count of `产品名`, sum of `销量数字`, sum
of `评论数` per group) with `top10_stats` (`get_top10_sum` per group). -/
def category_stats (rs : List Rec) : List CatStats :=
  (categories rs).map (fun cat =>
    { category := cat
      count := (rs.filter (fun r => r.category = cat)).length
      totalSales := (group_sales rs cat).sum
      totalComments :=
        ((rs.filter (fun r => r.category = cat)).map (fun r => r.comments)).sum
      top10 := get_top10_sum (group_sales rs cat) })

/-- The filter predicate of dashboard.py lines 104–107:
`(产品总数 >= min_products) & (类目总销量 >= min_sales)`. -/
def keep_stats (min_products : ℕ) (min_sales : ℚ) (s : CatStats) : Bool :=
  decide (min_products ≤ s.count) && decide (min_sales ≤ s.totalSales)

/-- `filtered_cats_df` before sorting (dashboard.py lines 104–107). -/
def filtered_cats (stats : List CatStats) (min_products : ℕ)
    (min_sales : ℚ) : List CatStats :=
  stats.filter (keep_stats min_products min_sales)

/-- The sort step of dashboard.py lines 110–113: descending by `类目总销量`
when `sort_mode` is the sales option `"按总销量 (热度)"`, else descending by
`类目总评论`. -/
def sort_cats (sort_mode : String) (l : List CatStats) : List CatStats :=
  if sort_mode = "按总销量 (热度)" then
    l.mergeSort (fun a b => decide (b.totalSales ≤ a.totalSales))
  else
    l.mergeSort (fun a b => decide (b.totalComments ≤ a.totalComments))

/-- `subset` (dashboard.py line 181): the active country's records of the
selected category, sorted ascending by `排名` (rank); the country
restriction is line 63's `countryFilter`. -/
def subset (rs : List Rec) (country cat : String) : List Rec :=
  ((countryFilter rs country).filter (fun r => r.category = cat)).mergeSort
    (fun a b => decide (a.rank ≤ b.rank))

/-- `df['销量数字'].max()` on a nonempty series (the empty case is `NaN` in
pandas and is unreachable here: the detail pane is rendered only when a
category with records exists). -/
def series_max : List ℤ → ℤ
  | [] => 0
  | x :: l => l.foldl max x

/-- `progress_val` (dashboard.py lines 205–207):
`min(sales_val / max_val, 1.0) if max_val > 0 else 0`, with
`sales_val = int(row['销量数字'])` and `max_val = int(df['销量数字'].max())`
(both integers after Python's `int()` truncation). -/
def progress_val (sales_val max_val : ℤ) : ℚ :=
  if 0 < max_val then min ((sales_val : ℚ) / (max_val : ℚ)) 1 else 0

/-- The action of `fixCol` on a single row, with the schema passed
explicitly (the schema is unchanged by the numeric-fix loop). -/
def fixRow (cols : List String) (c : String) (r : String → RawValue) :
    String → RawValue :=
  if cols.contains c then setCol r c (RawValue.num (coerce (r c))) else r

/-- Closed form of the row transformation performed by `load_data` on a
frame with schema `cols` (proved in `load_data_eq`): `Target_Category` is
copied from `类目`, else `所属类目`; `国家` is defaulted to `阿联酋` when
absent; each present numeric column is coerced; every other cell is
untouched. -/
def loadRowModel (cols : List String) (r : String → RawValue) :
    String → RawValue :=
  fun c =>
    if c = "Target_Category" then
      (if cols.contains "类目" then r "类目" else r "所属类目")
    else if c = "国家" then
      (if cols.contains "国家" then r "国家" else RawValue.str "阿联酋")
    else if cols_to_fix.contains c ∧ cols.contains c then
      RawValue.num (coerce (r c))
    else r c

/-- Closed form of the schema produced by `load_data`. -/
def loadColsModel (cols : List String) : List String :=
  (cols ++ ["Target_Category"]) ++
    (if cols.contains "国家" then [] else ["国家"])

/-- The row transformation performed by `load_data` before the numeric-fix
loop: set `Target_Category` from the alias, then default `国家` if the
schema lacks it. -/
def preRow (cols : List String) (r : String → RawValue) :
    String → RawValue :=
  let r1 := setCol r "Target_Category"
    (if cols.contains "类目" then r "类目" else r "所属类目")
  if cols.contains "国家" then r1 else setCol r1 "国家" (RawValue.str "阿联酋")

theorem fixCol_eq (f : Frame) (c : String) :
    fixCol f c = ⟨f.cols, f.rows.map (fixRow f.cols c)⟩ := by
  cases f with
  | mk cols rows =>
    unfold fixCol fixRow
    cases h : cols.contains c <;> simp [h]

theorem foldl_fixCol (l : List String) (f : Frame) :
    l.foldl fixCol f =
      ⟨f.cols, f.rows.map (fun r => l.foldl (fun r2 c => fixRow f.cols c r2) r)⟩ := by
  induction l generalizing f with
  | nil => simp
  | cons c l ih =>
    rw [List.foldl_cons, fixCol_eq, ih]
    simp [List.map_map, Function.comp]

theorem coerce_num (q : ℚ) : coerce (RawValue.num q) = q := rfl

theorem foldl_fixRow_val (l : List String) (cols : List String)
    (r : String → RawValue) (c2 : String) :
    (l.foldl (fun r2 c => fixRow cols c r2) r) c2 =
      if l.contains c2 ∧ cols.contains c2 then RawValue.num (coerce (r c2))
      else r c2 := by
  induction l generalizing r with
  | nil => simp
  | cons c l ih =>
    rw [List.foldl_cons, ih]
    by_cases hc : c2 = c
    · subst hc
      by_cases hcol : c2 ∈ cols
      · have hF : fixRow cols c2 r c2 = RawValue.num (coerce (r c2)) := by
          simp [fixRow, setCol, hcol]
        rw [hF]
        simp [coerce_num, hcol, List.contains_cons]
      · simp only [fixRow]
        simp [hcol]
    · have hfix : fixRow cols c r c2 = r c2 := by
        unfold fixRow setCol
        split <;> simp [hc]
      rw [hfix]
      have hcont : (c :: l).contains c2 = l.contains c2 := by
        simp only [List.contains_cons]
        have : (c2 == c) = false := by
          simp [hc]
        simp [this]
      rw [hcont]

theorem loadColsModel_contains_of_ne (cols : List String) (c : String)
    (hTC : c ≠ "Target_Category") (hG : c ≠ "国家") :
    (loadColsModel cols).contains c = cols.contains c := by
  unfold loadColsModel
  by_cases hg : cols.contains "国家" = true <;>
    simp [hg, hTC, hG]

theorem loadRow_key (cols : List String) (r : String → RawValue)
    (c2 : String) :
    (cols_to_fix.foldl (fun r2 c => fixRow (loadColsModel cols) c r2)
        (preRow cols r)) c2 = loadRowModel cols r c2 := by
  rw [foldl_fixRow_val]
  by_cases hTC : c2 = "Target_Category"
  · subst hTC
    have h1 : "Target_Category" ∉ cols_to_fix := by simp [cols_to_fix]
    by_cases hg : "国家" ∈ cols <;>
      simp [h1, loadRowModel, preRow, setCol, hg]
  · by_cases hG : c2 = "国家"
    · subst hG
      have h1 : "国家" ∉ cols_to_fix := by simp [cols_to_fix]
      by_cases hg : "国家" ∈ cols <;>
        simp [h1, loadRowModel, preRow, setCol, hTC, hg]
    · have hpre : preRow cols r c2 = r c2 := by
        by_cases hg : "国家" ∈ cols <;>
          simp [preRow, setCol, hTC, hG, hg]
      rw [loadColsModel_contains_of_ne cols c2 hTC hG, hpre]
      simp [loadRowModel, hTC, hG]

theorem load_aux_eq (f : Frame) (v : (String → RawValue) → RawValue)
    (hv : ∀ r, v r =
      (if f.cols.contains "类目" then r "类目" else r "所属类目")) :
    load_aux (addCol f "Target_Category" v) =
      ⟨loadColsModel f.cols, f.rows.map (loadRowModel f.cols)⟩ := by
  unfold load_aux
  by_cases hg : "国家" ∈ f.cols
  · rw [if_pos (by simp [addCol, hg])]
    rw [foldl_fixCol]
    have hcols : (addCol f "Target_Category" v).cols = loadColsModel f.cols := by
      simp [addCol, loadColsModel, hg]
    rw [hcols]
    have hrows : (addCol f "Target_Category" v).rows.map
        (fun r => cols_to_fix.foldl
          (fun r2 c => fixRow (loadColsModel f.cols) c r2) r) =
        f.rows.map (loadRowModel f.cols) := by
      simp only [addCol, List.map_map]
      apply List.map_congr_left
      intro r _
      have hpre : setCol r "Target_Category" (v r) = preRow f.cols r := by
        funext c2
        simp [preRow, setCol, hv, hg]
      simp only [Function.comp]
      rw [hpre]
      exact funext (loadRow_key f.cols r)
    rw [hrows]
  · rw [if_neg (by simp [addCol, hg])]
    rw [foldl_fixCol]
    have hcols : (addCol (addCol f "Target_Category" v) "国家"
        (fun _ => RawValue.str "阿联酋")).cols = loadColsModel f.cols := by
      simp [addCol, loadColsModel, hg]
    rw [hcols]
    have hrows : (addCol (addCol f "Target_Category" v) "国家"
        (fun _ => RawValue.str "阿联酋")).rows.map
        (fun r => cols_to_fix.foldl
          (fun r2 c => fixRow (loadColsModel f.cols) c r2) r) =
        f.rows.map (loadRowModel f.cols) := by
      simp only [addCol, List.map_map]
      apply List.map_congr_left
      intro r _
      have hpre : setCol (setCol r "Target_Category" (v r)) "国家"
          (RawValue.str "阿联酋") = preRow f.cols r := by
        funext c2
        simp [preRow, setCol, hv, hg]
      simp only [Function.comp]
      rw [hpre]
      exact funext (loadRow_key f.cols r)
    rw [hrows]

theorem load_data_eq (f : Frame)
    (h : "类目" ∈ f.cols ∨ "所属类目" ∈ f.cols) :
    load_data f =
      some ⟨loadColsModel f.cols, f.rows.map (loadRowModel f.cols)⟩ := by
  by_cases h1 : "类目" ∈ f.cols
  · rw [load_data, if_pos (by simp [h1])]
    rw [load_aux_eq f _ (fun r => by simp [h1])]
  · have h2 : "所属类目" ∈ f.cols := by
      rcases h with h | h
      · exact absurd h h1
      · exact h
    rw [load_data, if_neg (by simp [h1]), if_pos (by simp [h2])]
    rw [load_aux_eq f _ (fun r => by simp [h1])]

theorem load_data_none_iff (f : Frame) :
    load_data f = none ↔ ("类目" ∉ f.cols ∧ "所属类目" ∉ f.cols) := by
  unfold load_data
  by_cases h1 : "类目" ∈ f.cols
  · simp [h1]
  · by_cases h2 : "所属类目" ∈ f.cols <;> simp [h1, h2]

theorem load_data_some_elim (f g : Frame) (h : load_data f = some g) :
    g.cols = loadColsModel f.cols ∧
      g.rows = f.rows.map (loadRowModel f.cols) := by
  have halias : "类目" ∈ f.cols ∨ "所属类目" ∈ f.cols := by
    by_contra hc
    push_neg at hc
    have hnone := (load_data_none_iff f).mpr ⟨hc.1, hc.2⟩
    rw [h] at hnone
    exact Option.some_ne_none g hnone
  have heq := load_data_eq f halias
  rw [h] at heq
  have hg := Option.some.inj heq
  rw [hg]
  exact ⟨rfl, rfl⟩

theorem mem_cols_to_fix_ne (c : String) (hc : c ∈ cols_to_fix) :
    c ≠ "Target_Category" ∧ c ≠ "国家" := by
  simp [cols_to_fix] at hc
  rcases hc with rfl | rfl | rfl | rfl | rfl <;> exact ⟨by decide, by decide⟩

theorem loadRowModel_fix (cols : List String) (r : String → RawValue)
    (c : String) (hc : c ∈ cols_to_fix) (hcf : c ∈ cols) :
    loadRowModel cols r c = RawValue.num (coerce (r c)) := by
  obtain ⟨h1, h2⟩ := mem_cols_to_fix_ne c hc
  simp [loadRowModel, h1, h2, hc, hcf]

theorem loadRowModel_other (cols : List String) (r : String → RawValue)
    (c : String) (hc : c ∉ cols_to_fix) (h1 : c ≠ "Target_Category")
    (h2 : c ≠ "国家") :
    loadRowModel cols r c = r c := by
  simp [loadRowModel, h1, h2, hc]

theorem parseUnsigned_nonneg (l : List Char) (q : ℚ)
    (h : parseUnsigned l = some q) : 0 ≤ q := by
  unfold parseUnsigned at h
  split at h
  · split at h
    · have hq := Option.some.inj h
      rw [← hq]
      positivity
    · exact absurd h (by simp)
  · split at h
    · have hq := Option.some.inj h
      rw [← hq]
      positivity
    · exact absurd h (by simp)
  · exact absurd h (by simp)

theorem parseNum_nonneg (s : String) (q : ℚ) (hq : parseNum s = some q)
    (hh : s.toList.head? ≠ some '-') : 0 ≤ q := by
  unfold parseNum at hq
  split at hq
  all_goals
    first
      | (rename_i rest heq
         rw [heq] at hh
         exact absurd rfl hh)
      | exact parseUnsigned_nonneg _ q hq

theorem coerce_str_nonneg (s : String)
    (h : (pyStrip (stripCommas s)).toList.head? ≠ some '-') :
    0 ≤ coerce (RawValue.str s) := by
  unfold coerce
  cases hp : parseNum (pyStrip (stripCommas s)) with
  | none => simp [hp]
  | some q =>
      simp only [hp, Option.getD_some]
      exact parseNum_nonneg _ q hp h

/-- A concrete raw frame holding both category aliases and one numeric
column, used to instantiate the load-stage theorems. -/
def exRowBoth : String → RawValue := fun c =>
  if c = "类目" then RawValue.str "Kitchen"
  else if c = "所属类目" then RawValue.str "Other"
  else if c = "销量数字" then RawValue.str "1,680"
  else RawValue.str ""

/-- Frame around `exRowBoth` with schema `类目, 所属类目, 销量数字, 产品名`. -/
def exFrameBoth : Frame :=
  ⟨["类目", "所属类目", "销量数字", "产品名"], [exRowBoth]⟩

/-- A concrete raw frame whose sales-count field holds a negative numeral. -/
def exRowNeg : String → RawValue := fun c =>
  if c = "类目" then RawValue.str "K"
  else if c = "销量数字" then RawValue.str "-5"
  else RawValue.null

/-- Frame around `exRowNeg`. -/
def exFrameNeg : Frame := ⟨["类目", "销量数字"], [exRowNeg]⟩

/-- C1: numeric coercion, applied to each of the five numeric fields
(`cols_to_fix` = sales count, review count, price, rating, rank), strips
comma separators and surrounding whitespace and parses the result,
substituting exactly zero on parse failure or empty input and never
raising (the embedding `coerce` is a total function); in particular
`"1,680"`, `"1680"` and the number `1680` all normalize to `1680`, and
`""` and `"abc"` both normalize to `0`. -/
theorem coercion_strips_separators_and_defaults_zero :
    coerce (RawValue.str "1,680") = 1680 ∧
    coerce (RawValue.str "1680") = 1680 ∧
    coerce (RawValue.num 1680) = 1680 ∧
    coerce (RawValue.str "") = 0 ∧
    coerce (RawValue.str "abc") = 0 ∧
    (∀ s : String, parseNum (pyStrip (stripCommas s)) = none →
      coerce (RawValue.str s) = 0) ∧
    cols_to_fix = ["销量数字", "评论数", "价格", "评分", "排名"] :=
  ⟨by decide, by decide, rfl, by decide, by decide,
   fun s h => by simp [coerce, h], rfl⟩

/-- Witness for C1: the parse-failure hypothesis discharged at the
concrete garbage input `"abc"`. -/
theorem coercion_defaults_zero_witness :
    parseNum (pyStrip (stripCommas "abc")) = none ∧
      coerce (RawValue.str "abc") = 0 :=
  ⟨by decide,
   coercion_strips_separators_and_defaults_zero.2.2.2.2.2.1 "abc" (by decide)⟩

/-- C6: category resolution checks `类目` first and otherwise `所属类目`
(first match wins); if neither column exists, the load fails (`none`,
modelling `st.error`/`st.stop`) and serves no frame at all, and this is the
only condition on which the modelled load fails (the equivalence). -/
theorem schema_error_on_missing_category (f : Frame) :
    (load_data f = none ↔ ("类目" ∉ f.cols ∧ "所属类目" ∉ f.cols)) ∧
    ("类目" ∈ f.cols →
      load_data f =
        some ⟨loadColsModel f.cols, f.rows.map (loadRowModel f.cols)⟩ ∧
      ∀ r, loadRowModel f.cols r "Target_Category" = r "类目") ∧
    ("类目" ∉ f.cols → "所属类目" ∈ f.cols →
      load_data f =
        some ⟨loadColsModel f.cols, f.rows.map (loadRowModel f.cols)⟩ ∧
      ∀ r, loadRowModel f.cols r "Target_Category" = r "所属类目") := by
  refine ⟨load_data_none_iff f, fun h1 => ⟨load_data_eq f (Or.inl h1), ?_⟩,
    fun h1 h2 => ⟨load_data_eq f (Or.inr h2), ?_⟩⟩
  · intro r
    simp [loadRowModel, h1]
  · intro r
    simp [loadRowModel, h1]

/-- Witness for C6: on a concrete frame holding both aliases, the load
succeeds and `Target_Category` is copied from `类目`, not `所属类目`. -/
theorem schema_error_on_missing_category_witness :
    load_data exFrameBoth =
      some ⟨loadColsModel exFrameBoth.cols,
        exFrameBoth.rows.map (loadRowModel exFrameBoth.cols)⟩ ∧
    loadRowModel exFrameBoth.cols exRowBoth "Target_Category" =
      RawValue.str "Kitchen" := by
  have h := (schema_error_on_missing_category exFrameBoth).2.1
    (by simp [exFrameBoth])
  exact ⟨h.1, (h.2 exRowBoth).trans (by decide)⟩

/-- Counterexample to C9 as stated: the country `埃及` (Egypt) is not in the
lookup, yet its currency label is `"AED"` — the initial default — not an
empty/unspecified label. -/
theorem currency_unknown_not_empty :
    currency_symbol "埃及" = "AED" ∧ currency_symbol "埃及" ≠ "" := by
  constructor
  · rfl
  · decide

/-- C9 amended: the currency lookup is a small fixed mapping in which
`沙特` maps to `"SAR"` and every other country — including `阿联酋` and all
unknown countries — maps to the default label `"AED"`. -/
theorem currency_default_AED (c : String) (h : c ≠ "沙特") :
    currency_symbol c = "AED" ∧ currency_symbol "沙特" = "SAR" := by
  constructor
  · unfold currency_symbol
    rw [if_neg (by simp [h])]
    split <;> rfl
  · rfl

/-- Witness for C9 amended, at the concrete unknown country `埃及`. -/
theorem currency_default_AED_witness :
    "埃及" ≠ "沙特" ∧
      (currency_symbol "埃及" = "AED" ∧ currency_symbol "沙特" = "SAR") :=
  ⟨by decide, currency_default_AED "埃及" (by decide)⟩

/-- C10: normalization coerces only the five numeric columns and only those
present in the schema: every cell of any other column (product name, sales
description, image URL, product URL, the category source columns, and the
country column when present) keeps its original value, and an absent
numeric column is neither created nor zero-filled. -/
theorem normalization_frame_effect (f g : Frame)
    (h : load_data f = some g) :
    g.rows = f.rows.map (loadRowModel f.cols) ∧
    g.cols = loadColsModel f.cols ∧
    (∀ r c, c ∉ cols_to_fix → c ≠ "Target_Category" → c ≠ "国家" →
      loadRowModel f.cols r c = r c) ∧
    (∀ r, "国家" ∈ f.cols → loadRowModel f.cols r "国家" = r "国家") ∧
    (∀ r c, c ∈ cols_to_fix → c ∉ f.cols → loadRowModel f.cols r c = r c) ∧
    (∀ c, c ∈ cols_to_fix → c ∉ f.cols → c ∉ g.cols) := by
  obtain ⟨hcols, hrows⟩ := load_data_some_elim f g h
  refine ⟨hrows, hcols, ?_, ?_, ?_, ?_⟩
  · intro r c hc h1 h2
    exact loadRowModel_other f.cols r c hc h1 h2
  · intro r hg
    simp [loadRowModel, hg]
  · intro r c hc hcf
    obtain ⟨h1, h2⟩ := mem_cols_to_fix_ne c hc
    simp [loadRowModel, h1, h2, hcf]
  · intro c hc hcf
    obtain ⟨h1, h2⟩ := mem_cols_to_fix_ne c hc
    rw [hcols]
    simp [loadColsModel, h1, h2, hcf]

/-- Witness for C10: on the concrete frame `exFrameBoth`, the product-name
cell is untouched and the absent review-count column `评论数` is not
created. -/
theorem normalization_frame_effect_witness :
    loadRowModel exFrameBoth.cols exRowBoth "产品名" = exRowBoth "产品名" ∧
    "评论数" ∉ (Frame.mk (loadColsModel exFrameBoth.cols)
      (exFrameBoth.rows.map (loadRowModel exFrameBoth.cols))).cols := by
  have hload : load_data exFrameBoth =
      some ⟨loadColsModel exFrameBoth.cols,
        exFrameBoth.rows.map (loadRowModel exFrameBoth.cols)⟩ :=
    load_data_eq exFrameBoth (by simp [exFrameBoth])
  have h := normalization_frame_effect exFrameBoth _ hload
  exact ⟨h.2.2.1 exRowBoth "产品名" (by simp [cols_to_fix]) (by decide)
      (by decide),
    h.2.2.2.2.2 "评论数" (by simp [cols_to_fix]) (by simp [exFrameBoth])⟩

/-- Counterexample to C5 as stated: a raw sales-count cell `"-5"` survives
normalization as the negative number `-5`; numeric fields are not clamped
to be nonnegative. -/
theorem negative_sales_survives_normalization :
    (load_data exFrameNeg).map (fun g => g.rows.map (fun r => r "销量数字")) =
      some [RawValue.num (-5)] ∧ (-5 : ℚ) < 0 := by
  constructor
  · rw [load_data_eq exFrameNeg (by simp [exFrameNeg])]
    decide
  · decide

/-- C5 amended: after normalization every present numeric field holds an
actual number (`RawValue.num`, never null/missing), namely the coercion of
the raw cell; the coerced value is `0` on parse failure and on missing
cells, and is nonnegative whenever the cleaned text does not start with a
minus sign — but a raw negative numeral stays negative (no clamping). -/
theorem normalized_numeric_fields_nonnull (f g : Frame)
    (h : load_data f = some g) :
    g.rows = f.rows.map (loadRowModel f.cols) ∧
    (∀ r c, c ∈ cols_to_fix → c ∈ f.cols →
      loadRowModel f.cols r c = RawValue.num (coerce (r c))) ∧
    (∀ s : String, (pyStrip (stripCommas s)).toList.head? ≠ some '-' →
      0 ≤ coerce (RawValue.str s)) ∧
    0 ≤ coerce RawValue.null := by
  obtain ⟨_, hrows⟩ := load_data_some_elim f g h
  refine ⟨hrows, ?_, ?_, le_refl 0⟩
  · intro r c hc hcf
    exact loadRowModel_fix f.cols r c hc hcf
  · intro s hs
    exact coerce_str_nonneg s hs

/-- Witness for C5 amended: instantiated on the concrete frame
`exFrameBoth`; the sales-count cell `"1,680"` becomes the number `1680`. -/
theorem normalized_numeric_fields_nonnull_witness :
    loadRowModel exFrameBoth.cols exRowBoth "销量数字" =
      RawValue.num 1680 ∧
    0 ≤ coerce (RawValue.str " 12 ") := by
  have hload : load_data exFrameBoth =
      some ⟨loadColsModel exFrameBoth.cols,
        exFrameBoth.rows.map (loadRowModel exFrameBoth.cols)⟩ :=
    load_data_eq exFrameBoth (by simp [exFrameBoth])
  have h := normalized_numeric_fields_nonnull exFrameBoth _ hload
  refine ⟨?_, h.2.2.1 " 12 " (by decide)⟩
  rw [h.2.1 exRowBoth "销量数字" (by simp [cols_to_fix])
    (by simp [exFrameBoth])]
  decide

/-- A minimal normalized record, fixing every field the aggregation claims
do not vary. -/
def mkRec (cat : String) (sales : ℚ) : Rec :=
  ⟨cat, "阿联酋", "p", 0, sales, 0⟩

/-- Eleven records of one category, all with zero sales. -/
def exRecsZero : List Rec := List.replicate 11 (mkRec "K" 0)

/-- Eleven records of one category: ten with sales 1 and one with sales
`-5` (reachable, since normalization passes negative numerals through). -/
def exRecsNeg : List Rec :=
  List.replicate 10 (mkRec "K" 1) ++ [mkRec "K" (-5)]

/-- One record with sales 3. -/
def exRecsOne : List Rec := [mkRec "K" 3]

/-- The summary row produced for `exRecsOne`. -/
def exStatsOne : CatStats := ⟨"K", 1, 3, 0, 3⟩

theorem get_top10_sum_le (l : List ℚ) (h : ∀ x ∈ l, 0 ≤ x) :
    get_top10_sum l ≤ l.sum ∧ (l.length ≤ 10 → get_top10_sum l = l.sum) := by
  unfold get_top10_sum
  set le := fun a b : ℚ => decide (b ≤ a) with hle
  have hperm : List.Perm (l.mergeSort le) l := List.mergeSort_perm l le
  have hsum : (l.mergeSort le).sum = l.sum := hperm.sum_eq
  constructor
  · have hsplit : ((l.mergeSort le).take 10).sum +
        ((l.mergeSort le).drop 10).sum = l.sum := by
      rw [← hsum, ← List.sum_append, List.take_append_drop]
    have hdrop : 0 ≤ ((l.mergeSort le).drop 10).sum := by
      apply List.sum_nonneg
      intro x hx
      exact h x (hperm.mem_iff.mp (List.mem_of_mem_drop hx))
    linarith
  · intro hlen
    have hlen2 : (l.mergeSort le).length ≤ 10 := by
      rw [List.length_mergeSort]
      exact hlen
    rw [List.take_of_length_le hlen2, hsum]

/-- C2 amended: for every category in the aggregation result of records
with nonnegative sales counts, `top10SalesSum ≤ totalSales`, and any
category with at most 10 members has `top10SalesSum = totalSales` (but
equality can also hold for larger categories, when the members outside the
top 10 all have zero sales, so the `iff` of the original claim fails). -/
theorem top10_le_totalSales (rs : List Rec) (h : ∀ r ∈ rs, 0 ≤ r.sales)
    (s : CatStats) (hs : s ∈ category_stats rs) :
    s.top10 ≤ s.totalSales ∧ (s.count ≤ 10 → s.top10 = s.totalSales) := by
  unfold category_stats at hs
  rw [List.mem_map] at hs
  obtain ⟨cat, _, hcat⟩ := hs
  subst hcat
  have hnn : ∀ x ∈ group_sales rs cat, 0 ≤ x := by
    intro x hx
    unfold group_sales at hx
    rw [List.mem_map] at hx
    obtain ⟨r, hr, hrx⟩ := hx
    rw [← hrx]
    exact h r (List.mem_of_mem_filter hr)
  have hcore := get_top10_sum_le (group_sales rs cat) hnn
  have hlen : (group_sales rs cat).length =
      (rs.filter (fun r => r.category = cat)).length := by
    unfold group_sales
    rw [List.length_map]
  exact ⟨hcore.1, fun hc => hcore.2 (by rw [hlen]; exact hc)⟩

theorem dedup_replicate_succ {α : Type} [DecidableEq α] (n : ℕ) (a : α) :
    (List.replicate (n + 1) a).dedup = [a] := by
  induction n with
  | zero => simp
  | succ n ih =>
      rw [List.replicate_succ, List.dedup_cons_of_mem (by simp), ih]

theorem get_top10_sum_replicate_zero :
    get_top10_sum (List.replicate 11 (0 : ℚ)) = 0 := by
  unfold get_top10_sum
  rw [List.mergeSort_of_sorted (by simp)]
  rw [List.replicate_succ' 10, List.take_left' (by simp)]
  simp

theorem stats_exRecsZero : category_stats exRecsZero = [⟨"K", 11, 0, 0, 0⟩] := by
  have hcat : categories exRecsZero = ["K"] := by
    unfold categories exRecsZero
    rw [List.map_replicate]
    exact dedup_replicate_succ 10 _
  have hfil : exRecsZero.filter (fun r => r.category = "K") = exRecsZero := by
    unfold exRecsZero
    rw [List.filter_replicate_of_pos (by simp [mkRec])]
  unfold category_stats
  rw [hcat]
  simp only [List.map_cons, List.map_nil]
  congr 1
  have hgs : group_sales exRecsZero "K" = List.replicate 11 (0 : ℚ) := by
    unfold group_sales
    rw [hfil]
    unfold exRecsZero
    rw [List.map_replicate]
    rfl
  simp [CatStats.mk.injEq]
  refine ⟨?_, ?_, ?_, ?_⟩
  · rw [hfil]
    simp [exRecsZero]
  · rw [hgs]
    simp
  · rw [hfil]
    unfold exRecsZero
    rw [List.map_replicate]
    simp [mkRec]
  · rw [hgs]
    exact get_top10_sum_replicate_zero

theorem get_top10_sum_neg_case :
    get_top10_sum (List.replicate 10 (1 : ℚ) ++ [(-5 : ℚ)]) = 10 := by
  unfold get_top10_sum
  rw [List.mergeSort_of_sorted ?hsort]
  case hsort =>
    rw [List.pairwise_append]
    refine ⟨by simp, List.pairwise_singleton _ _, ?_⟩
    intro x hx y hy
    simp at hx hy
    rw [hx, hy]
    decide
  rw [List.take_left' (by simp)]
  simp
  norm_num

theorem stats_exRecsNeg : category_stats exRecsNeg = [⟨"K", 11, 5, 0, 10⟩] := by
  have hmap : exRecsNeg.map (fun r => r.category) = List.replicate 11 "K" := by
    unfold exRecsNeg
    rw [List.map_append, List.map_replicate, List.replicate_succ' 10]
    simp [mkRec]
  have hcat : categories exRecsNeg = ["K"] := by
    unfold categories
    rw [hmap]
    exact dedup_replicate_succ 10 _
  have hfil : exRecsNeg.filter (fun r => r.category = "K") = exRecsNeg := by
    unfold exRecsNeg
    rw [List.filter_append, List.filter_replicate_of_pos (by simp [mkRec])]
    simp [mkRec]
  have hgs : group_sales exRecsNeg "K" =
      List.replicate 10 (1 : ℚ) ++ [(-5 : ℚ)] := by
    unfold group_sales
    rw [hfil]
    unfold exRecsNeg
    rw [List.map_append, List.map_replicate]
    simp [mkRec]
  unfold category_stats
  rw [hcat]
  simp only [List.map_cons, List.map_nil]
  congr 1
  simp [CatStats.mk.injEq]
  refine ⟨?_, ?_, ?_, ?_⟩
  · rw [hfil]
    simp [exRecsNeg]
  · rw [hgs]
    simp
    norm_num
  · rw [hfil]
    unfold exRecsNeg
    rw [List.map_append, List.map_replicate]
    simp [mkRec]
  · rw [hgs]
    exact get_top10_sum_neg_case

/-- Counterexample to C2 as stated: in the aggregation result of
`exRecsZero` (eleven zero-sales records of one category) the unique
category has `top10SalesSum = totalSales` although it has 11 > 10 members,
refuting the "equality only if at most 10 members" direction; and in the
aggregation result of `exRecsNeg` (ten sales-1 records and one sales-(-5)
record) the unique category has `totalSales = 5 < 10 = top10SalesSum`,
refuting `top10SalesSum ≤ totalSales` when negative sales occur. -/
theorem top10_total_equality_counterexample :
    category_stats exRecsZero = [⟨"K", 11, 0, 0, 0⟩] ∧
    ¬(11 ≤ 10) ∧
    category_stats exRecsNeg = [⟨"K", 11, 5, 0, 10⟩] ∧
    ¬((10 : ℚ) ≤ 5) := by
  refine ⟨stats_exRecsZero, by decide, stats_exRecsNeg, by norm_num⟩

theorem stats_exRecsOne : category_stats exRecsOne = [exStatsOne] := by
  have hcat : categories exRecsOne = ["K"] := by
    simp [categories, exRecsOne, mkRec]
  unfold category_stats
  rw [hcat]
  simp only [List.map_cons, List.map_nil]
  congr 1
  have hfil : exRecsOne.filter (fun r => r.category = "K") = exRecsOne := by
    simp [exRecsOne, mkRec]
  have hgs : group_sales exRecsOne "K" = [(3 : ℚ)] := by
    unfold group_sales
    rw [hfil]
    simp [exRecsOne, mkRec]
  simp [CatStats.mk.injEq, exStatsOne]
  refine ⟨?_, ?_, ?_, ?_⟩
  · rw [hfil]
    simp [exRecsOne]
  · rw [hgs]
    simp
  · rw [hfil]
    simp [exRecsOne, mkRec]
  · rw [hgs]
    unfold get_top10_sum
    rw [List.mergeSort_singleton, List.take_of_length_le (by simp)]
    simp

/-- Witness for C2 amended: on `exRecsOne` (one record, sales 3) the unique
summary row has `top10SalesSum ≤ totalSales` with equality, its count `1`
being at most 10. -/
theorem top10_le_totalSales_witness :
    exStatsOne.top10 ≤ exStatsOne.totalSales ∧
      exStatsOne.top10 = exStatsOne.totalSales := by
  have hmem : exStatsOne ∈ category_stats exRecsOne := by
    rw [stats_exRecsOne]
    simp
  have h := top10_le_totalSales exRecsOne ?hnn exStatsOne hmem
  case hnn =>
    intro r hr
    simp [exRecsOne, mkRec] at hr
    rw [hr]
    norm_num [mkRec]
  exact ⟨h.1, h.2 (by simp [exStatsOne])⟩

theorem length_filter_mono {α : Type} (l : List α) (p q : α → Bool)
    (h : ∀ a, q a = true → p a = true) :
    (l.filter q).length ≤ (l.filter p).length := by
  induction l with
  | nil => simp
  | cons a l ih =>
      by_cases hq : q a = true
      · rw [List.filter_cons_of_pos hq, List.filter_cons_of_pos (h a hq)]
        simpa using ih
      · rw [List.filter_cons_of_neg (by simp [hq])]
        cases hp : p a
        · rw [List.filter_cons_of_neg (by simp [hp])]
          exact ih
        · rw [List.filter_cons_of_pos hp]
          exact le_trans ih (Nat.le_succ _)

/-- C3: the filter keeps a summary iff its product count is at least
`min_products` and its total sales at least `min_sales` (both inclusive,
both required), and raising either threshold never enlarges the set of
valid categories. -/
theorem valid_category_filter :
    (∀ (stats : List CatStats) (minP : ℕ) (minS : ℚ) (s : CatStats),
      s ∈ filtered_cats stats minP minS ↔
        s ∈ stats ∧ minP ≤ s.count ∧ minS ≤ s.totalSales) ∧
    (∀ (stats : List CatStats) (minP minP2 : ℕ) (minS minS2 : ℚ),
      minP ≤ minP2 → minS ≤ minS2 →
      (filtered_cats stats minP2 minS2).length ≤
        (filtered_cats stats minP minS).length) := by
  constructor
  · intro stats minP minS s
    simp [filtered_cats, keep_stats, List.mem_filter, and_assoc]
  · intro stats minP minP2 minS minS2 hP hS
    apply length_filter_mono
    intro a ha
    simp only [keep_stats, Bool.and_eq_true, decide_eq_true_eq] at ha ⊢
    exact ⟨le_trans hP ha.1, le_trans hS ha.2⟩

/-- Two concrete summary rows (cf. spec Scenario B: a 12-product category
and a 5-product category). -/
def exStatsList : List CatStats :=
  [⟨"Kitchen", 12, 100, 7, 90⟩, ⟨"Decor", 5, 600, 3, 600⟩]

/-- Witness for C3: the membership equivalence at a concrete summary, and
monotonicity when raising thresholds from (10, 0) to (11, 50). -/
theorem valid_category_filter_witness :
    ((⟨"Kitchen", 12, 100, 7, 90⟩ : CatStats) ∈
        filtered_cats exStatsList 10 0 ↔
      (⟨"Kitchen", 12, 100, 7, 90⟩ : CatStats) ∈ exStatsList ∧
        10 ≤ 12 ∧ (0 : ℚ) ≤ 100) ∧
    (filtered_cats exStatsList 11 50).length ≤
      (filtered_cats exStatsList 10 0).length :=
  ⟨valid_category_filter.1 exStatsList 10 0 _,
   valid_category_filter.2 exStatsList 10 11 0 50 (by decide) (by norm_num)⟩

/-- C4: for every list of category summaries, the sales sort mode returns
an order with non-increasing `totalSales`, and the comments sort mode an
order with non-increasing `totalComments`. -/
theorem sort_mode_descending (l : List CatStats) :
    (sort_cats "按总销量 (热度)" l).Pairwise
      (fun a b => b.totalSales ≤ a.totalSales) ∧
    (sort_cats "按总评论数 (沉淀)" l).Pairwise
      (fun a b => b.totalComments ≤ a.totalComments) := by
  constructor
  · unfold sort_cats
    rw [if_pos rfl]
    have h := @List.sorted_mergeSort CatStats
      (fun a b : CatStats => decide (b.totalSales ≤ a.totalSales))
      (fun a b c hab hbc => by
        simp only [decide_eq_true_eq] at hab hbc ⊢
        exact le_trans hbc hab)
      (fun a b => by
        rcases le_total a.totalSales b.totalSales with hab | hab <;>
          simp [hab])
      l
    exact h.imp (fun hab => of_decide_eq_true hab)
  · unfold sort_cats
    rw [if_neg (by decide)]
    have h := @List.sorted_mergeSort CatStats
      (fun a b : CatStats => decide (b.totalComments ≤ a.totalComments))
      (fun a b c hab hbc => by
        simp only [decide_eq_true_eq] at hab hbc ⊢
        exact le_trans hbc hab)
      (fun a b => by
        rcases le_total a.totalComments b.totalComments with hab | hab <;>
          simp [hab])
      l
    exact h.imp (fun hab => of_decide_eq_true hab)

/-- C8: the detail selector returns exactly the active country's records of
the selected category (a permutation of the two-stage filter, with the
membership equivalence), ordered ascending by rank; when the category is
absent or has no matching records it returns the empty sequence, a valid
non-error outcome. -/
theorem detail_selector_spec (rs : List Rec) (country cat : String) :
    List.Perm (subset rs country cat)
      ((countryFilter rs country).filter (fun r => r.category = cat)) ∧
    (subset rs country cat).Pairwise (fun a b => a.rank ≤ b.rank) ∧
    (∀ r, r ∈ subset rs country cat ↔
      r ∈ rs ∧ r.country = country ∧ r.category = cat) ∧
    ((∀ r ∈ rs, r.country = country → r.category ≠ cat) →
      subset rs country cat = []) := by
  have hperm := List.mergeSort_perm
    ((countryFilter rs country).filter (fun r => decide (r.category = cat)))
    (fun a b => decide (a.rank ≤ b.rank))
  refine ⟨hperm, ?_, ?_, ?_⟩
  · have h := @List.sorted_mergeSort Rec
      (fun a b : Rec => decide (a.rank ≤ b.rank))
      (fun a b c hab hbc => by
        simp only [decide_eq_true_eq] at hab hbc ⊢
        exact le_trans hab hbc)
      (fun a b => by
        rcases le_total a.rank b.rank with hab | hab <;> simp [hab])
      ((countryFilter rs country).filter (fun r => decide (r.category = cat)))
    exact h.imp (fun hab => of_decide_eq_true hab)
  · intro r
    unfold subset
    rw [hperm.mem_iff]
    simp only [countryFilter, List.mem_filter, decide_eq_true_eq]
    tauto
  · intro hnone
    have hnil : (countryFilter rs country).filter
        (fun r => decide (r.category = cat)) = [] := by
      rw [List.filter_eq_nil_iff]
      intro r hr
      unfold countryFilter at hr
      rw [List.mem_filter] at hr
      simp only [decide_eq_true_eq] at hr ⊢
      exact hnone r hr.1 hr.2
    unfold subset
    rw [hnil]
    simp

/-- Witness for C8: one record of another country and category yields the
empty detail sequence for the selection (`沙特`, `"Absent"`). -/
theorem detail_selector_spec_witness :
    subset [mkRec "K" 3] "沙特" "Absent" = [] :=
  (detail_selector_spec [mkRec "K" 3] "沙特" "Absent").2.2.2 (by
    intro r hr hcountry
    simp only [List.mem_singleton] at hr
    rw [hr] at hcountry
    exact absurd hcountry (by decide))

theorem foldl_max_init (l : List ℤ) (b : ℤ) : b ≤ l.foldl max b := by
  induction l generalizing b with
  | nil => exact le_refl b
  | cons x t ih => exact le_trans (le_max_left b x) (ih (max b x))

theorem foldl_max_mem (l : List ℤ) (b : ℤ) (x : ℤ) (hx : x ∈ l) :
    x ≤ l.foldl max b := by
  induction l generalizing b with
  | nil => cases hx
  | cons y t ih =>
      rcases List.mem_cons.mp hx with rfl | h
      · exact le_trans (le_max_right b x) (foldl_max_init t (max b x))
      · exact ih (max b y) h

theorem series_max_ge (l : List ℤ) (x : ℤ) (hx : x ∈ l) :
    x ≤ series_max l := by
  cases l with
  | nil => cases hx
  | cons y t =>
      unfold series_max
      rcases List.mem_cons.mp hx with rfl | h
      · exact foldl_max_init t x
      · exact foldl_max_mem t y x h

/-- Counterexample to C7's lower clamp: a record whose raw sales text is
`"-1"` normalizes to `-1`, and with dataset maximum `5` the displayed heat
ratio is `-1/5 < 0` — the code computes `min(sales/max, 1)` without
clamping below, so the value is not confined to `[0, 1]`. -/
theorem heat_ratio_negative_escapes_clamp :
    coerce (RawValue.str "-1") = -1 ∧
    progress_val (-1) 5 = -(1 / 5 : ℚ) ∧
    progress_val (-1) 5 < 0 := by
  have hval : progress_val (-1) 5 = -(1 / 5 : ℚ) := by
    unfold progress_val
    rw [if_pos (by decide)]
    have h1 : ((-1 : ℤ) : ℚ) / ((5 : ℤ) : ℚ) = -(1 / 5 : ℚ) := by norm_num
    rw [h1, min_eq_left (by norm_num)]
  exact ⟨by decide, hval, by rw [hval]; norm_num⟩

/-- C7 amended: for a record of the active country's dataset with
nonnegative sales counts, the heat ratio equals sales ÷ dataset-wide
maximum and lies in `[0, 1]` when the maximum is positive, and is defined
as exactly zero when the maximum is zero (no division by zero); the upper
clamp `min(·, 1)` is present in the code but the lower bound holds only
because the sales are nonnegative — negative sales would escape it. -/
theorem heat_ratio_division (sales : ℤ) (l : List ℤ) (hmem : sales ∈ l)
    (hnn : ∀ x ∈ l, 0 ≤ x) :
    (0 < series_max l →
      progress_val sales (series_max l) =
        (sales : ℚ) / (series_max l : ℚ) ∧
      0 ≤ progress_val sales (series_max l) ∧
      progress_val sales (series_max l) ≤ 1) ∧
    (series_max l = 0 → progress_val sales (series_max l) = 0) := by
  constructor
  · intro hpos
    have hle : sales ≤ series_max l := series_max_ge l sales hmem
    have hs0 : 0 ≤ sales := hnn sales hmem
    have hdiv1 : (sales : ℚ) / (series_max l : ℚ) ≤ 1 := by
      rw [div_le_one (by exact_mod_cast hpos)]
      exact_mod_cast hle
    have hdiv0 : 0 ≤ (sales : ℚ) / (series_max l : ℚ) := by
      apply div_nonneg
      · exact_mod_cast hs0
      · exact_mod_cast le_of_lt hpos
    have hval : progress_val sales (series_max l) =
        (sales : ℚ) / (series_max l : ℚ) := by
      unfold progress_val
      rw [if_pos hpos, min_eq_left hdiv1]
    rw [hval]
    exact ⟨rfl, hdiv0, hdiv1⟩
  · intro h0
    unfold progress_val
    rw [h0]
    simp

/-- Witness for C7 amended (spec Scenario D): sales 2500 with dataset sales
`[2500, 5000]` gives heat ratio `2500 / 5000 = 1/2`, within `[0, 1]`. -/
theorem heat_ratio_division_witness :
    progress_val 2500 (series_max [2500, 5000]) = (1 / 2 : ℚ) ∧
    0 ≤ progress_val 2500 (series_max [2500, 5000]) ∧
    progress_val 2500 (series_max [2500, 5000]) ≤ 1 := by
  have hmax : series_max ([2500, 5000] : List ℤ) = 5000 := by
    unfold series_max
    simp
  have h := (heat_ratio_division 2500 [2500, 5000] (by decide)
    (by decide)).1 (by rw [hmax]; decide)
  refine ⟨?_, h.2.1, h.2.2⟩
  rw [h.1, hmax]
  norm_num

end Dashboard
